import Mathlib

/-!
# Verification of the URL-shortener core

Shallow embedding of the repository's Python core:
* `app/models.py`  — `URLStore` (an insertion-ordered dict from short code to
  a record `{url, clicks, created_at}`), embedded as an association list.
* `app/utils.py`   — `generate_short_code`, `is_valid_url`, `validate_short_code`.
* `app/main.py`    — the three Flask handlers, embedded as pure functions on the
  store plus the request data.

Modelling conventions:
* Timestamps (`datetime.utcnow().isoformat()`) are abstract `Nat` values passed
  to the operation at call time.
* Python's global random stream (`random.choice`) is a supplied draw function
  `rand : Nat → Char`; the n-th call to `random.choice(chars)` is `rand n`,
  and the fact that `random.choice(chars)` always yields an element of `chars`
  becomes the hypothesis `∀ n, rand n ∈ codeAlphabet`.
* Strings are Lean `String`s (lists of unicode scalar values), matching Python
  `str`.  Python whitespace and `str.isalnum` are modelled explicitly below.
-/

/-- One stored record, `{url, clicks, created_at}` in `models.py`. -/
structure Entry where
  url : String
  clicks : Nat
  created_at : Nat
deriving Repr, DecidableEq

/-- The `URLStore.urls` dict, as an insertion-ordered association list. -/
abbrev Store := List (String × Entry)

/-- Python dict assignment `d[k] = v`: replace the binding if the key is
present (dicts hold each key at most once, so at the first occurrence),
otherwise append a new binding at the end. -/
def dictInsert : Store → String → Entry → Store
  | [], c, e => [(c, e)]
  | (c', e') :: rest, c, e =>
      if c' = c then (c, e) :: rest else (c', e') :: dictInsert rest c e

/-- `URLStore.save_url`: `self.urls[short_code] = {url, clicks: 0, created_at: now}`.
The timestamp `t` models `datetime.utcnow().isoformat()` taken at call time. -/
def save_url (s : Store) (short_code original_url : String) (t : Nat) : Store :=
  dictInsert s short_code { url := original_url, clicks := 0, created_at := t }

/-- `URLStore.get_url`: `self.urls.get(short_code)`. -/
def get_url : Store → String → Option Entry
  | [], _ => none
  | (c', e) :: rest, c => if c' = c then some e else get_url rest c

/-- `URLStore.code_exists`: `short_code in self.urls`. -/
def code_exists : Store → String → Bool
  | [], _ => false
  | (c', _) :: rest, c => c' = c || code_exists rest c

/-- In-place `self.urls[short_code]['clicks'] += 1` (key known present). -/
def bumpClicks : Store → String → Store
  | [], _ => []
  | (c', e) :: rest, c =>
      if c' = c then (c', { e with clicks := e.clicks + 1 }) :: rest
      else (c', e) :: bumpClicks rest c

/-- `URLStore.increment_clicks`: if the code is present, bump its counter and
return `true`; otherwise leave the store alone and return `false`. -/
def increment_clicks (s : Store) (short_code : String) : Store × Bool :=
  if code_exists s short_code then (bumpClicks s short_code, true)
  else (s, false)

/-- `K` sequential `increment_clicks` calls on the same code (state part). -/
def incrementK : Nat → Store → String → Store
  | 0, s, _ => s
  | k + 1, s, c => incrementK k (increment_clicks s c).1 c

/-! ## Basic store lemmas -/

theorem get_dictInsert_self (s : Store) (c : String) (e : Entry) :
    get_url (dictInsert s c e) c = some e := by
  induction s with
  | nil => simp [dictInsert, get_url]
  | cons hd tl ih =>
      obtain ⟨c', e'⟩ := hd
      by_cases h : c' = c <;> simp [dictInsert, get_url, h, ih]

theorem get_dictInsert_ne (s : Store) (c c' : String) (e : Entry) (h : c' ≠ c) :
    get_url (dictInsert s c e) c' = get_url s c' := by
  induction s with
  | nil => simp [dictInsert, get_url, Ne.symm h]
  | cons hd tl ih =>
      obtain ⟨c0, e0⟩ := hd
      by_cases h0 : c0 = c
      · subst h0
        simp [dictInsert, get_url, Ne.symm h]
      · by_cases h1 : c0 = c' <;> simp [dictInsert, get_url, h0, h1, h, ih]

theorem code_exists_eq_isSome (s : Store) (c : String) :
    code_exists s c = (get_url s c).isSome := by
  induction s with
  | nil => simp [code_exists, get_url]
  | cons hd tl ih =>
      obtain ⟨c', e⟩ := hd
      by_cases h : c' = c <;> simp [code_exists, get_url, h, ih]

theorem get_bump_self (s : Store) (c : String) (e : Entry)
    (h : get_url s c = some e) :
    get_url (bumpClicks s c) c = some { e with clicks := e.clicks + 1 } := by
  induction s with
  | nil => simp [get_url] at h
  | cons hd tl ih =>
      obtain ⟨c', e'⟩ := hd
      by_cases hc : c' = c
      · simp [get_url, hc] at h
        simp [bumpClicks, get_url, hc, h]
      · simp [get_url, hc] at h
        simp [bumpClicks, get_url, hc, ih h]

theorem get_bump_ne (s : Store) (c c' : String) (h : c' ≠ c) :
    get_url (bumpClicks s c) c' = get_url s c' := by
  induction s with
  | nil => simp [bumpClicks]
  | cons hd tl ih =>
      obtain ⟨c0, e0⟩ := hd
      by_cases h0 : c0 = c
      · subst h0
        simp [bumpClicks, get_url, Ne.symm h]
      · by_cases h1 : c0 = c' <;> simp [bumpClicks, get_url, h0, h1, h, ih]

theorem increment_of_present (s : Store) (c : String) (e : Entry)
    (h : get_url s c = some e) :
    increment_clicks s c = (bumpClicks s c, true) := by
  simp [increment_clicks, code_exists_eq_isSome, h]

theorem increment_of_absent (s : Store) (c : String)
    (h : get_url s c = none) :
    increment_clicks s c = (s, false) := by
  simp [increment_clicks, code_exists_eq_isSome, h]

theorem get_incrementK (K : Nat) (s : Store) (c : String) (e : Entry)
    (h : get_url s c = some e) :
    get_url (incrementK K s c) c = some { e with clicks := e.clicks + K } := by
  induction K generalizing s e with
  | zero => simpa [incrementK] using h
  | succ k ih =>
      have hstep : get_url ((increment_clicks s c).1) c
          = some { e with clicks := e.clicks + 1 } := by
        rw [increment_of_present s c e h]
        exact get_bump_self s c e h
      have := ih _ _ hstep
      simp only [incrementK, this]
      simp [Nat.add_assoc, Nat.add_comm 1 k]

theorem get_save_url_self (s : Store) (c u : String) (t : Nat) :
    get_url (save_url s c u t) c = some { url := u, clicks := 0, created_at := t } := by
  simpa [save_url] using get_dictInsert_self s c { url := u, clicks := 0, created_at := t }

/-- **C2.** For every store state, every code and every URL, `save_url`
followed by `get_url` on that code yields the freshly created entry:
`url` is the saved URL, `clicks = 0`, `created_at` is the timestamp captured
at the call.  The state `s` is arbitrary, so in particular this holds when
the code was already present: the old entry is silently overwritten. -/
theorem save_then_get (s : Store) (c u : String) (t : Nat) :
    get_url (save_url s c u t) c = some { url := u, clicks := 0, created_at := t } :=
  get_save_url_self s c u t

/-- **C3.** `increment_clicks` on a present code returns `true`, bumps that
entry's `clicks` by exactly one (its `url` and `created_at` untouched), and
leaves every other code's lookup unchanged; on an absent code it returns
`false` and leaves the store entirely unchanged.  Consequently `save_url`
followed by `K` sequential `increment_clicks` calls yields `clicks = K`. -/
theorem increment_clicks_spec (s : Store) (c : String) :
    (∀ e, get_url s c = some e →
        (increment_clicks s c).2 = true ∧
        get_url (increment_clicks s c).1 c = some { e with clicks := e.clicks + 1 } ∧
        ∀ c', c' ≠ c → get_url (increment_clicks s c).1 c' = get_url s c') ∧
    (get_url s c = none → increment_clicks s c = (s, false)) ∧
    (∀ u t K, get_url (incrementK K (save_url s c u t) c) c
        = some { url := u, clicks := K, created_at := t }) := by
  refine ⟨?_, increment_of_absent s c, ?_⟩
  · intro e he
    rw [increment_of_present s c e he]
    exact ⟨rfl, get_bump_self s c e he, fun c' hc' => get_bump_ne s c c' hc'⟩
  · intro u t K
    have h0 := get_save_url_self s c u t
    simpa using get_incrementK K (save_url s c u t) c _ h0

/-- Witness for `increment_clicks_spec` at a concrete store. -/
theorem increment_clicks_spec_witness :
    (increment_clicks [("abc123", ⟨"http://x", 0, 5⟩)] "abc123").2 = true ∧
    get_url (increment_clicks [("abc123", ⟨"http://x", 0, 5⟩)] "abc123").1 "abc123"
      = some ⟨"http://x", 1, 5⟩ ∧
    increment_clicks [("abc123", ⟨"http://x", 0, 5⟩)] "zzzzzz"
      = ([("abc123", ⟨"http://x", 0, 5⟩)], false) ∧
    get_url (incrementK 3 (save_url [] "abc123" "http://x" 5) "abc123") "abc123"
      = some ⟨"http://x", 3, 5⟩ := by
  have h := increment_clicks_spec [("abc123", ⟨"http://x", 0, 5⟩)] "abc123"
  have h2 := increment_clicks_spec [("abc123", ⟨"http://x", 0, 5⟩)] "zzzzzz"
  have h3 := increment_clicks_spec ([] : Store) "abc123"
  exact ⟨(h.1 ⟨"http://x", 0, 5⟩ (by decide)).1, (h.1 ⟨"http://x", 0, 5⟩ (by decide)).2.1,
    h2.2.1 (by decide), h3.2.2 "http://x" 5 3⟩

/-! ## Operation sequences and reachable states

The store's public operations (`save_url`, `get_url`, `increment_clicks`,
`code_exists`) as state-transforming steps; the two reads leave the state
unchanged.  A state is reachable when some operation sequence produces it
from the empty store `URLStore.__init__` starts with. -/

/-- One store operation, as invoked by callers. -/
inductive Op where
  | saveOp (code url : String) (t : Nat)
  | incrementOp (code : String)
  | getOp (code : String)
  | existsOp (code : String)
deriving Repr, DecidableEq

/-- State transition of one operation (reads are state-identities). -/
def step (s : Store) : Op → Store
  | .saveOp code url t => save_url s code url t
  | .incrementOp code => (increment_clicks s code).1
  | .getOp _ => s
  | .existsOp _ => s

/-- Run an operation sequence from the empty store. -/
def run (ops : List Op) : Store := ops.foldl step []

/-- A store state reachable by some operation sequence. -/
def Reachable (s : Store) : Prop := ∃ ops, run ops = s

/-- `op` is not a save of a code already present in `s`. -/
def FreshSave (s : Store) (op : Op) : Prop :=
  ∀ code url t, op = Op.saveOp code url t → code_exists s code = false

theorem mem_keys_dictInsert (s : Store) (c a : String) (e : Entry)
    (h : a ∈ (dictInsert s c e).map Prod.fst) :
    a = c ∨ a ∈ s.map Prod.fst := by
  induction s with
  | nil =>
      simp only [dictInsert, List.map_cons, List.map_nil, List.mem_singleton] at h
      exact Or.inl h
  | cons hd tl ih =>
      obtain ⟨c0, e0⟩ := hd
      simp only [List.map_cons, List.mem_cons]
      simp only [dictInsert] at h
      by_cases h0 : c0 = c
      · rw [if_pos h0] at h
        simp only [List.map_cons, List.mem_cons] at h
        tauto
      · rw [if_neg h0] at h
        simp only [List.map_cons, List.mem_cons] at h
        rcases h with h | h
        · tauto
        · rcases ih h with h' | h' <;> tauto

theorem keys_bump (s : Store) (c : String) :
    (bumpClicks s c).map Prod.fst = s.map Prod.fst := by
  induction s with
  | nil => simp [bumpClicks]
  | cons hd tl ih =>
      obtain ⟨c0, e0⟩ := hd
      by_cases h0 : c0 = c <;> simp [bumpClicks, h0, ih]

theorem nodup_keys_dictInsert (s : Store) (c : String) (e : Entry)
    (h : (s.map Prod.fst).Nodup) :
    ((dictInsert s c e).map Prod.fst).Nodup := by
  induction s with
  | nil => simp [dictInsert]
  | cons hd tl ih =>
      obtain ⟨c0, e0⟩ := hd
      simp only [List.map_cons, List.nodup_cons] at h
      by_cases h0 : c0 = c
      · subst h0
        simpa [dictInsert] using h
      · simp only [dictInsert, h0, if_false, List.map_cons, List.nodup_cons]
        refine ⟨fun hmem => ?_, ih h.2⟩
        rcases mem_keys_dictInsert tl c c0 e hmem with h' | h'
        · exact h0 h'
        · exact h.1 h'

theorem code_exists_mono (s : Store) (op : Op) (c : String)
    (h : code_exists s c = true) : code_exists (step s op) c = true := by
  have hmem : (get_url s c).isSome := by rwa [code_exists_eq_isSome] at h
  obtain ⟨e, he⟩ := Option.isSome_iff_exists.mp hmem
  cases op with
  | saveOp code url t =>
      rw [code_exists_eq_isSome]
      by_cases hc : c = code
      · subst hc
        simp [step, get_save_url_self]
      · simp [step, save_url, get_dictInsert_ne s code c _ hc, he]
  | incrementOp code =>
      rw [code_exists_eq_isSome]
      simp only [step, increment_clicks]
      by_cases hex : code_exists s code
      · simp only [hex, if_true]
        by_cases hc : c = code
        · subst hc
          simp [get_bump_self s c e he]
        · simp [get_bump_ne s code c hc, he]
      · simp [hex, he]
  | getOp code => simpa [step] using h
  | existsOp code => simpa [step] using h

theorem nodup_keys_step (s : Store) (op : Op)
    (h : (s.map Prod.fst).Nodup) : ((step s op).map Prod.fst).Nodup := by
  cases op with
  | saveOp code url t => exact nodup_keys_dictInsert s code _ h
  | incrementOp code =>
      simp only [step, increment_clicks]
      by_cases hex : code_exists s code
      · simpa [hex, keys_bump]
      · simpa [hex]
  | getOp code => simpa [step]
  | existsOp code => simpa [step]

theorem nodup_keys_reachable (s : Store) (h : Reachable s) :
    (s.map Prod.fst).Nodup := by
  obtain ⟨ops, rfl⟩ := h
  suffices hgen : ∀ (init : Store), (init.map Prod.fst).Nodup →
      ((ops.foldl step init).map Prod.fst).Nodup by
    exact hgen [] (by simp)
  induction ops with
  | nil => intro init hi; simpa using hi
  | cons op rest ih =>
      intro init hi
      exact ih (step init op) (nodup_keys_step init op hi)

theorem entry_preserved_fresh_step (s : Store) (op : Op)
    (hfresh : FreshSave s op) (c : String) (e : Entry)
    (he : get_url s c = some e) :
    ∃ e', get_url (step s op) c = some e' ∧ e'.url = e.url ∧
      e'.created_at = e.created_at ∧ e.clicks ≤ e'.clicks := by
  cases op with
  | saveOp code url t =>
      have hnot : code_exists s code = false := hfresh code url t rfl
      have hc : c ≠ code := by
        intro hcc
        subst hcc
        rw [code_exists_eq_isSome, he] at hnot
        simp at hnot
      refine ⟨e, ?_, rfl, rfl, le_refl _⟩
      simp [step, save_url, get_dictInsert_ne s code c _ hc, he]
  | incrementOp code =>
      by_cases hc : c = code
      · subst hc
        refine ⟨{ e with clicks := e.clicks + 1 }, ?_, rfl, rfl, Nat.le_succ _⟩
        simp [step, increment_of_present s c e he, get_bump_self s c e he]
      · refine ⟨e, ?_, rfl, rfl, le_refl _⟩
        simp only [step, increment_clicks]
        by_cases hex : code_exists s code
        · simp [hex, get_bump_ne s code c hc, he]
        · simp [hex, he]
  | getOp code => exact ⟨e, by simpa [step] using he, rfl, rfl, le_refl _⟩
  | existsOp code => exact ⟨e, by simpa [step] using he, rfl, rfl, le_refl _⟩

/-- **C4 counterexample.**  The claimed invariant fails on the code as stated:
from the reachable state built by `save "abc123"` then `increment "abc123"`
(where `clicks = 1`), a single further `save` step on the same code silently
overwrites the entry, so `clicks` drops from 1 to 0 and `url` is mutated. -/
theorem store_invariant_cex :
    Reachable (run [Op.saveOp "abc123" "http://x" 0, Op.incrementOp "abc123"]) ∧
    get_url (run [Op.saveOp "abc123" "http://x" 0, Op.incrementOp "abc123"]) "abc123"
      = some { url := "http://x", clicks := 1, created_at := 0 } ∧
    get_url (step (run [Op.saveOp "abc123" "http://x" 0, Op.incrementOp "abc123"])
        (Op.saveOp "abc123" "http://y" 7)) "abc123"
      = some { url := "http://y", clicks := 0, created_at := 7 } ∧
    ¬ (1 ≤ 0) ∧ "http://y" ≠ "http://x" := by
  refine ⟨⟨[Op.saveOp "abc123" "http://x" 0, Op.incrementOp "abc123"], rfl⟩, ?_, ?_, ?_, ?_⟩
  all_goals decide

/-- **C4 (amended).**  Across any single operation step: the key set only
grows (no entry is ever deleted) and, in reachable states, each code key maps
to at most one entry.  Provided `save` is never invoked on a code already
present, every existing entry also keeps its `url` and `created_at`
unchanged and its `clicks` never decreases.  (A `save` on an already-present
code, which the spec itself allows as a silent overwrite, replaces the entry
and resets `clicks` to 0 — the counterexample shows the unrestricted claim
fails there.) -/
theorem store_invariant_amended :
    (∀ s op c, code_exists s c = true → code_exists (step s op) c = true) ∧
    (∀ s, Reachable s → (s.map Prod.fst).Nodup) ∧
    (∀ s op, FreshSave s op → ∀ c e, get_url s c = some e →
        ∃ e', get_url (step s op) c = some e' ∧ e'.url = e.url ∧
          e'.created_at = e.created_at ∧ e.clicks ≤ e'.clicks) :=
  ⟨code_exists_mono, nodup_keys_reachable, entry_preserved_fresh_step⟩

/-- Witness for `store_invariant_amended` at concrete stores and steps. -/
theorem store_invariant_amended_witness :
    code_exists (step [("abc123", ⟨"http://x", 0, 0⟩)] (Op.incrementOp "abc123")) "abc123" = true ∧
    ((run [Op.saveOp "abc123" "http://x" 0]).map Prod.fst).Nodup ∧
    ∃ e', get_url (step [("abc123", ⟨"http://x", 2, 0⟩)] (Op.saveOp "zzzzzz" "http://y" 1)) "abc123"
        = some e' ∧ e'.url = "http://x" ∧ e'.created_at = 0 ∧ 2 ≤ e'.clicks := by
  obtain ⟨h1, h2, h3⟩ := store_invariant_amended
  refine ⟨h1 _ (Op.incrementOp "abc123") "abc123" (by decide),
          h2 _ ⟨[Op.saveOp "abc123" "http://x" 0], rfl⟩,
          h3 _ (Op.saveOp "zzzzzz" "http://y" 1) ?_ "abc123" ⟨"http://x", 2, 0⟩ (by decide)⟩
  intro code url t heq
  cases heq
  decide

/-- **C10.** `code_exists` and `get_url` never disagree about membership:
in every reachable store state (indeed in every state at all, as the helper
`code_exists_eq_isSome` shows), `code_exists c` is `true` exactly when
`get_url c` returns an entry. -/
theorem code_exists_agrees_get (s : Store) (h : Reachable s) (c : String) :
    code_exists s c = (get_url s c).isSome :=
  code_exists_eq_isSome s c

/-- Witness for `code_exists_agrees_get` at a concrete reachable state. -/
theorem code_exists_agrees_get_witness :
    code_exists (run [Op.saveOp "abc123" "http://x" 0]) "abc123"
      = (get_url (run [Op.saveOp "abc123" "http://x" 0]) "abc123").isSome :=
  code_exists_agrees_get _ ⟨[Op.saveOp "abc123" "http://x" 0], rfl⟩ "abc123"

/-! ## Validators (`app/utils.py`)

`is_valid_url` applies the regex `^(https?|ftp)://[^\s/$.?#].[^\s]*$`
(compiled with `re.IGNORECASE`) to `url.strip()` via `re.match`.  The
embedding compiles the regex structurally:
* the alternation `(https?|ftp)://` becomes the three scheme literals
  `https://`, `http://`, `ftp://` (at most one can match a given string,
  since they pairwise differ where both are still within bounds, so the
  alternation is deterministic);
* `[^\s/$.?#]` is one character that is neither whitespace nor one of
  `/ $ . ? #`;
* `.` is one arbitrary character other than `\n` (no `re.DOTALL`);
* `[^\s]*$` is all-or-nothing: `$` only matches at the very end because the
  input was stripped (no trailing newline), so the greedy star must cover
  exactly the remaining characters, each non-whitespace.
Whitespace and case folding are modelled on the ASCII range (the unicode
whitespace and case-fold code points above 0x7f are not modelled). -/

/-- Python `\s` / `str.strip` whitespace (ASCII range). -/
def pyIsSpace (c : Char) : Bool :=
  c == ' ' || c == '\t' || c == '\n' || c == '\r' || c == '\x0b' || c == '\x0c'

/-- `str.strip()`: drop whitespace from both ends. -/
def pyStrip (l : List Char) : List Char :=
  ((l.dropWhile pyIsSpace).reverse.dropWhile pyIsSpace).reverse

/-- Consume the literal `pat` (given lowercase) case-insensitively from the
head of `l`, returning the remainder on success (regex literal + IGNORECASE). -/
def matchCI : List Char → List Char → Option (List Char)
  | [], l => some l
  | _ :: _, [] => none
  | p :: ps, c :: cs => if c.toLower = p then matchCI ps cs else none

/-- The regex tail `[^\s/$.?#].[^\s]*$` after the scheme. -/
def regexTail : List Char → Bool
  | c1 :: c2 :: rest =>
      !(pyIsSpace c1 || c1 == '/' || c1 == '$' || c1 == '.' || c1 == '?' || c1 == '#')
        && c2 != '\n' && rest.all (fun c => !pyIsSpace c)
  | _ => false

/-- `is_valid_url` from `app/utils.py`: false on the empty string, else
match the compiled pattern against the stripped input. -/
def is_valid_url (url : String) : Bool :=
  if url.data.isEmpty then false
  else
    match matchCI "https://".data (pyStrip url.data)
        <|> matchCI "http://".data (pyStrip url.data)
        <|> matchCI "ftp://".data (pyStrip url.data) with
    | some r => regexTail r
    | none => false

/-- Python `str.isalnum`, per character, for code points up to U+00FF:
ASCII digits and letters, plus the Latin-1 alphanumerics — `ª` (U+00AA),
`² ³ ¹` (superscript digits), `µ` (U+00B5), `º` (U+00BA), the vulgar
fractions `¼ ½ ¾`, and the Latin-1 letters (U+00C0–U+00FF except the two
operators `×` U+00D7 and `÷` U+00F7).  Code points above U+00FF are not
modelled (treated as non-alphanumeric). -/
def pyIsAlnum (c : Char) : Bool :=
  decide ((0x30 ≤ c.toNat ∧ c.toNat ≤ 0x39) ∨ (0x41 ≤ c.toNat ∧ c.toNat ≤ 0x5a) ∨
    (0x61 ≤ c.toNat ∧ c.toNat ≤ 0x7a) ∨
    c.toNat = 0xaa ∨ c.toNat = 0xb2 ∨ c.toNat = 0xb3 ∨ c.toNat = 0xb5 ∨
    c.toNat = 0xb9 ∨ c.toNat = 0xba ∨ (0xbc ≤ c.toNat ∧ c.toNat ≤ 0xbe) ∨
    (0xc0 ≤ c.toNat ∧ c.toNat ≤ 0xd6) ∨ (0xd8 ≤ c.toNat ∧ c.toNat ≤ 0xf6) ∨
    (0xf8 ≤ c.toNat ∧ c.toNat ≤ 0xff))

/-- `validate_short_code` from `app/utils.py`: `not short_code` guard, the
length-6 check, then `short_code.isalnum()`. -/
def validate_short_code (short_code : String) : Bool :=
  if short_code.data.isEmpty then false
  else if short_code.data.length ≠ 6 then false
  else short_code.data.all pyIsAlnum

/-- Membership in `[A-Za-z0-9]`, the alphabet the spec claims for codes. -/
def asciiAlnum (c : Char) : Bool :=
  decide ((0x41 ≤ c.toNat ∧ c.toNat ≤ 0x5a) ∨ (0x61 ≤ c.toNat ∧ c.toNat ≤ 0x7a) ∨
    (0x30 ≤ c.toNat ∧ c.toNat ≤ 0x39))

/-- The short-code validity predicate exactly as claim C7 words it:
length exactly 6 and every character in `[A-Za-z0-9]`. -/
def claimShortCodeOK (s : String) : Bool :=
  decide (s.data.length = 6) && s.data.all asciiAlnum

/-- The URL-validity predicate exactly as claim C5 words it: after
stripping, non-empty, a scheme `(http|https|ftp)://` (case-insensitive),
then at least one non-whitespace character that is not `/ . ? #` or
whitespace, then any (possibly zero) remaining non-whitespace characters. -/
def claimValidURL (url : String) : Bool :=
  !(pyStrip url.data).isEmpty &&
    (match matchCI "https://".data (pyStrip url.data)
        <|> matchCI "http://".data (pyStrip url.data)
        <|> matchCI "ftp://".data (pyStrip url.data) with
     | some (c1 :: rest) =>
        !(pyIsSpace c1 || c1 == '/' || c1 == '.' || c1 == '?' || c1 == '#')
          && rest.all (fun c => !pyIsSpace c)
     | _ => false)

/-- **C5 counterexample.**  The code's regex disagrees with the claim's
description of it in both directions: `"http://a"` (a single character
after the scheme) satisfies the claimed pattern but the regex demands a
second character (`.`) after the `[^\s/$.?#]` class, so the code rejects
it; `"http://a b"` has embedded whitespace, which the claim says is always
rejected, yet the regex's `.` happily matches the space, so the code
accepts it. -/
theorem is_valid_url_cex :
    is_valid_url "http://a" = false ∧ claimValidURL "http://a" = true ∧
    is_valid_url "http://a b" = true ∧ claimValidURL "http://a b" = false := by
  decide

/-- **C6.** The §8 test vectors for `is_valid_url`: false on `""`,
`"not-a-url"`, `"ftp://"`, `"http://"`, `"just some text"`; true on
`"https://www.example.com/very/long/url/path"`. -/
theorem is_valid_url_testcases :
    is_valid_url "" = false ∧
    is_valid_url "not-a-url" = false ∧
    is_valid_url "ftp://" = false ∧
    is_valid_url "http://" = false ∧
    is_valid_url "just some text" = false ∧
    is_valid_url "https://www.example.com/very/long/url/path" = true := by
  decide

/-- **C7 counterexample.**  `validate_short_code` calls Python's
unicode-aware `str.isalnum`, not an `[A-Za-z0-9]` check: the 6-character
string `"abcé12"` (with `é`, U+00E9, a Latin-1 letter) is accepted by the
code but contains a character outside `[A-Za-z0-9]`, so the claimed
iff fails. -/
theorem validate_short_code_cex :
    validate_short_code "abcé12" = true ∧ claimShortCodeOK "abcé12" = false := by
  decide

/-- **C7 (amended).**  `validate_short_code s` is true iff `s` has length
exactly 6 and every character is alphanumeric in Python's unicode sense
(`str.isalnum`); on ASCII characters this coincides with `[A-Za-z0-9]`,
but Latin-1 alphanumerics such as `é` are also accepted. -/
theorem validate_short_code_amended (s : String) :
    (validate_short_code s = true ↔
      s.data.length = 6 ∧ ∀ c ∈ s.data, pyIsAlnum c = true) ∧
    (∀ c : Char, c.toNat ≤ 0x7f → pyIsAlnum c = asciiAlnum c) := by
  constructor
  · unfold validate_short_code
    by_cases hl : s.data.length = 6
    · have he : s.data.isEmpty = false := by
        cases hd : s.data with
        | nil => rw [hd] at hl; simp at hl
        | cons a l => simp
      simp [he, hl, List.all_eq_true]
    · constructor
      · intro hfalse
        exfalso
        by_cases he : s.data.isEmpty
        · simp [he] at hfalse
        · simp [he] at hfalse
          exact hl hfalse.1
      · intro hand
        exact absurd hand.1 hl
  · intro c hc
    unfold pyIsAlnum asciiAlnum
    rw [decide_eq_decide]
    omega

/-- Witness for `validate_short_code_amended` at concrete inputs. -/
theorem validate_short_code_amended_witness :
    validate_short_code "Abc123" = true ∧ pyIsAlnum 'z' = asciiAlnum 'z' := by
  have h := validate_short_code_amended "Abc123"
  exact ⟨h.1.mpr (by decide), h.2 'z' (by decide)⟩

/-! ## The amended URL-validity characterization (C5) -/

/-- The three scheme literals the alternation `(https?|ftp)://` denotes. -/
def schemePats : List (List Char) := ["https://".data, "http://".data, "ftp://".data]

/-- **C5 (amended), declaratively.**  What `is_valid_url` actually accepts:
after stripping, the input decomposes as a case-insensitive scheme
(`http://`, `https://` or `ftp://`), then one character that is neither
whitespace nor one of `/ $ . ? #`, then one further character other than
`\n`, then only non-whitespace characters to the end. -/
def AmendedValidURL (url : String) : Prop :=
  ∃ pre c1 c2 rest, pyStrip url.data = pre ++ c1 :: c2 :: rest ∧
    pre.map Char.toLower ∈ schemePats ∧
    pyIsSpace c1 = false ∧ c1 ∉ (['/', '$', '.', '?', '#'] : List Char) ∧
    c2 ≠ '\n' ∧ ∀ c ∈ rest, pyIsSpace c = false

theorem matchCI_eq_some (p : List Char) :
    ∀ l r, matchCI p l = some r ↔ ∃ pre, pre.map Char.toLower = p ∧ l = pre ++ r := by
  induction p with
  | nil =>
      intro l r
      constructor
      · intro h
        simp only [matchCI, Option.some.injEq] at h
        exact ⟨[], rfl, by simpa using h⟩
      · rintro ⟨pre, hpre, rfl⟩
        have hp : pre = [] := by simpa using hpre
        subst hp
        simp [matchCI]
  | cons p ps ih =>
      intro l r
      cases l with
      | nil =>
          constructor
          · intro h; simp [matchCI] at h
          · rintro ⟨pre, hpre, hl⟩
            cases pre with
            | nil => simp at hpre
            | cons a pre' => simp at hl
      | cons c cs =>
          constructor
          · intro h
            by_cases hc : c.toLower = p
            · simp only [matchCI, if_pos hc] at h
              obtain ⟨pre', hpre', rfl⟩ := (ih cs r).mp h
              exact ⟨c :: pre', by simp [hpre', hc], rfl⟩
            · simp only [matchCI, if_neg hc] at h
              exact absurd h (by simp)
          · rintro ⟨pre, hpre, hl⟩
            cases pre with
            | nil => simp at hpre
            | cons a pre' =>
                simp only [List.map_cons, List.cons.injEq] at hpre
                obtain ⟨ha, hpre'⟩ := hpre
                simp only [List.cons_append, List.cons.injEq] at hl
                obtain ⟨hac, hcs⟩ := hl
                subst hac
                simp only [matchCI, if_pos ha]
                exact (ih cs r).mpr ⟨pre', hpre', hcs⟩

theorem take_lower_of_decomp (l pre tail P : List Char)
    (hl : l = pre ++ tail) (hp : pre.map Char.toLower = P) :
    (l.map Char.toLower).take P.length = P := by
  subst hl
  rw [List.map_append, ← hp, List.take_left]

theorem matchCI_none_of_take_ne (Q l : List Char)
    (h : (l.map Char.toLower).take Q.length ≠ Q) :
    matchCI Q l = none := by
  cases hm : matchCI Q l with
  | none => rfl
  | some r =>
      obtain ⟨pre, hpre, rfl⟩ := (matchCI_eq_some Q l r).mp hm
      exact absurd (take_lower_of_decomp _ pre r Q rfl hpre) h

theorem take_clash (L P Q : List Char)
    (hP : (L.map Char.toLower).take P.length = P)
    (hle : P.length ≤ Q.length) (hne : Q.take P.length ≠ P) :
    (L.map Char.toLower).take Q.length ≠ Q := by
  intro hQ
  apply hne
  calc Q.take P.length
      = ((L.map Char.toLower).take Q.length).take P.length := by rw [hQ]
    _ = (L.map Char.toLower).take P.length := by
        rw [List.take_take, Nat.min_eq_left hle]
    _ = P := hP

/-- **C5 (amended).**  `is_valid_url` accepts exactly the strings whose
stripped form is a case-insensitive scheme `http://`, `https://` or
`ftp://`, then one character that is neither whitespace nor `/ $ . ? #`,
then one further character other than `\n`, then zero or more
non-whitespace characters — i.e. at least two characters after the
scheme, the second of which may even be a space or tab. -/
theorem is_valid_url_amended (url : String) :
    is_valid_url url = true ↔ AmendedValidURL url := by
  constructor
  · intro h
    by_cases he : url.data.isEmpty
    · rw [is_valid_url, if_pos he] at h
      exact absurd h (by simp)
    · rw [is_valid_url, if_neg he] at h
      cases hm : (matchCI "https://".data (pyStrip url.data)
          <|> matchCI "http://".data (pyStrip url.data)
          <|> matchCI "ftp://".data (pyStrip url.data)) with
      | none =>
          rw [hm] at h
          exact absurd h (by simp)
      | some r =>
          rw [hm] at h
          cases r with
          | nil => simp [regexTail] at h
          | cons c1 r' =>
            cases r' with
            | nil => simp [regexTail] at h
            | cons c2 rest =>
              simp only [regexTail, Bool.and_eq_true, Bool.not_eq_true',
                Bool.or_eq_false_iff, beq_eq_false_iff_ne, bne_iff_ne,
                List.all_eq_true, Bool.not_eq_true] at h
              obtain ⟨⟨⟨⟨⟨⟨⟨hsp, hslash⟩, hdol⟩, hdot⟩, hq⟩, hhash⟩, hnl⟩, hrest⟩ := h
              have hsome : ∃ P ∈ schemePats,
                  matchCI P (pyStrip url.data) = some (c1 :: c2 :: rest) := by
                cases hA : matchCI "https://".data (pyStrip url.data) with
                | some rA =>
                    rw [hA] at hm
                    simp only [Option.some_orElse, Option.some.injEq] at hm
                    exact ⟨"https://".data, by simp [schemePats], by rw [hA, hm]⟩
                | none =>
                    rw [hA, Option.none_orElse] at hm
                    cases hB : matchCI "http://".data (pyStrip url.data) with
                    | some rB =>
                        rw [hB] at hm
                        simp only [Option.some_orElse, Option.some.injEq] at hm
                        exact ⟨"http://".data, by simp [schemePats], by rw [hB, hm]⟩
                    | none =>
                        rw [hB, Option.none_orElse] at hm
                        exact ⟨"ftp://".data, by simp [schemePats], hm⟩
              obtain ⟨P, hPmem, hmP⟩ := hsome
              obtain ⟨pre, hpre, hdec⟩ := (matchCI_eq_some P _ _).mp hmP
              refine ⟨pre, c1, c2, rest, hdec, hpre ▸ hPmem, hsp, ?_, hnl, hrest⟩
              simp only [List.mem_cons, List.not_mem_nil, or_false]
              push_neg
              exact ⟨hslash, hdol, hdot, hq, hhash⟩
  · rintro ⟨pre, c1, c2, rest, hdec, hP, h1, h2, h3, h4⟩
    have hne : url.data ≠ [] := by
      intro h0
      rw [h0] at hdec
      simp [pyStrip] at hdec
    have he : url.data.isEmpty = false := by
      cases hd : url.data with
      | nil => exact absurd hd hne
      | cons a l => simp
    have h2' : c1 ≠ '/' ∧ c1 ≠ '$' ∧ c1 ≠ '.' ∧ c1 ≠ '?' ∧ c1 ≠ '#' := by
      simpa using h2
    obtain ⟨hslash, hdol, hdot, hq, hhash⟩ := h2'
    have htail : regexTail (c1 :: c2 :: rest) = true := by
      simp [regexTail, h1, hslash, hdol, hdot, hq, hhash, h3, List.all_eq_true]
      exact h4
    rw [is_valid_url, if_neg (by simp [he])]
    simp only [schemePats, List.mem_cons, List.not_mem_nil, or_false] at hP
    rcases hP with hP | hP | hP
    · have hA : matchCI "https://".data (pyStrip url.data) = some (c1 :: c2 :: rest) :=
        (matchCI_eq_some _ _ _).mpr ⟨pre, hP, hdec⟩
      rw [hA, Option.some_orElse]
      exact htail
    · have hP7 : ((pyStrip url.data).map Char.toLower).take ("http://".data).length
          = "http://".data := take_lower_of_decomp _ pre _ _ hdec hP
      have hAnone : matchCI "https://".data (pyStrip url.data) = none :=
        matchCI_none_of_take_ne _ _
          (take_clash _ "http://".data "https://".data hP7 (by decide) (by decide))
      have hB : matchCI "http://".data (pyStrip url.data) = some (c1 :: c2 :: rest) :=
        (matchCI_eq_some _ _ _).mpr ⟨pre, hP, hdec⟩
      rw [hAnone, Option.none_orElse, hB, Option.some_orElse]
      exact htail
    · have hP6 : ((pyStrip url.data).map Char.toLower).take ("ftp://".data).length
          = "ftp://".data := take_lower_of_decomp _ pre _ _ hdec hP
      have hAnone : matchCI "https://".data (pyStrip url.data) = none :=
        matchCI_none_of_take_ne _ _
          (take_clash _ "ftp://".data "https://".data hP6 (by decide) (by decide))
      have hBnone : matchCI "http://".data (pyStrip url.data) = none :=
        matchCI_none_of_take_ne _ _
          (take_clash _ "ftp://".data "http://".data hP6 (by decide) (by decide))
      have hC : matchCI "ftp://".data (pyStrip url.data) = some (c1 :: c2 :: rest) :=
        (matchCI_eq_some _ _ _).mpr ⟨pre, hP, hdec⟩
      rw [hAnone, Option.none_orElse, hBnone, Option.none_orElse, hC]
      exact htail

/-! ## Code generator (`generate_short_code` in `app/utils.py`) -/

/-- `string.ascii_letters + string.digits`: lowercase, uppercase, digits —
the 62-character alphabet. -/
def codeAlphabet : List Char :=
  "abcdefghijklmnopqrstuvwxyzABCDEFGHIJKLMNOPQRSTUVWXYZ0123456789".data

/-- One candidate, `''.join(random.choice(chars) for _ in range(length))`,
consuming the `k`-th through `(k + length - 1)`-th draws of the stream. -/
def mkCandidate (rand : Nat → Char) (k length : Nat) : String :=
  String.mk ((List.range length).map (fun i => rand (k + i)))

/-- The retry loop of `generate_short_code`: `fuel` attempts remain and the
next unused random draw has index `k`.  An attempt succeeds when
`existing_codes is None or code not in existing_codes`; after the loop the
function raises `Exception("Unable to generate unique short code")`,
modelled as the `.error` variant. -/
def genLoop (length : Nat) (existing : Option (List String)) (rand : Nat → Char) :
    Nat → Nat → Except String String
  | 0, _ => .error "Unable to generate unique short code"
  | fuel + 1, k =>
      let code := mkCandidate rand k length
      let fresh : Bool :=
        match existing with
        | none => true
        | some l => !(decide (code ∈ l))
      if fresh then .ok code else genLoop length existing rand fuel (k + length)

/-- `generate_short_code(length=6, existing_codes=None)` with
`max_attempts = 100`. -/
def generate_short_code (length : Nat) (existing : Option (List String))
    (rand : Nat → Char) : Except String String :=
  genLoop length existing rand 100 0

theorem genLoop_succ_some (length : Nat) (E : List String) (rand : Nat → Char)
    (fuel k : Nat) :
    genLoop length (some E) rand (fuel + 1) k =
      if mkCandidate rand k length ∈ E then genLoop length (some E) rand fuel (k + length)
      else .ok (mkCandidate rand k length) := by
  by_cases hmem : mkCandidate rand k length ∈ E <;> simp [genLoop, hmem]

theorem genLoop_ok (length : Nat) (E : List String) (rand : Nat → Char)
    (hrand : ∀ n, rand n ∈ codeAlphabet) :
    ∀ fuel k c, genLoop length (some E) rand fuel k = .ok c →
      c.data.length = length ∧ (∀ ch ∈ c.data, ch ∈ codeAlphabet) ∧ c ∉ E := by
  intro fuel
  induction fuel with
  | zero => intro k c h; simp [genLoop] at h
  | succ f ih =>
      intro k c h
      rw [genLoop_succ_some] at h
      by_cases hmem : mkCandidate rand k length ∈ E
      · rw [if_pos hmem] at h
        exact ih (k + length) c h
      · rw [if_neg hmem] at h
        obtain rfl : mkCandidate rand k length = c := by simpa using h
        refine ⟨by simp [mkCandidate], ?_, hmem⟩
        intro ch hch
        simp [mkCandidate] at hch
        obtain ⟨i, hi, rfl⟩ := hch
        exact hrand (k + i)

theorem genLoop_error (length : Nat) (E : List String) (rand : Nat → Char) :
    ∀ fuel k e, genLoop length (some E) rand fuel k = .error e →
      e = "Unable to generate unique short code" ∧
      ∀ j < fuel, mkCandidate rand (k + j * length) length ∈ E := by
  intro fuel
  induction fuel with
  | zero =>
      intro k e h
      simp only [genLoop, Except.error.injEq] at h
      exact ⟨h.symm, fun j hj => absurd hj (by omega)⟩
  | succ f ih =>
      intro k e h
      rw [genLoop_succ_some] at h
      by_cases hmem : mkCandidate rand k length ∈ E
      · rw [if_pos hmem] at h
        obtain ⟨he, hall⟩ := ih (k + length) e h
        refine ⟨he, fun j hj => ?_⟩
        cases j with
        | zero => simpa using hmem
        | succ j' =>
            have hj' := hall j' (by omega)
            have harith : k + length + j' * length = k + (j' + 1) * length := by ring
            rwa [harith] at hj'
      · rw [if_neg hmem] at h
        simp at h

/-- **C1.** For every length `L ≥ 1`, exclusion set `E`, and any random
stream drawing from the 62-character alphanumeric alphabet:
`generate_short_code` either returns a string of exactly `L` alphabet
characters that is **not** in `E`, or fails with the exhaustion error —
and it fails only when all 100 candidate attempts were members of `E`. -/
theorem generate_short_code_spec (L : Nat) (E : List String) (rand : Nat → Char)
    (hrand : ∀ n, rand n ∈ codeAlphabet) (hL : 1 ≤ L) :
    (∀ c, generate_short_code L (some E) rand = .ok c →
        c.data.length = L ∧ (∀ ch ∈ c.data, ch ∈ codeAlphabet) ∧ c ∉ E) ∧
    (∀ e, generate_short_code L (some E) rand = .error e →
        e = "Unable to generate unique short code" ∧
        ∀ j < 100, mkCandidate rand (j * L) L ∈ E) := by
  constructor
  · intro c h
    exact genLoop_ok L E rand hrand 100 0 c h
  · intro e h
    obtain ⟨he, hall⟩ := genLoop_error L E rand 100 0 e h
    exact ⟨he, fun j hj => by simpa using hall j hj⟩

/-- Witness for `generate_short_code_spec` with a constant-`'a'` stream. -/
theorem generate_short_code_spec_witness :
    "aaaaaa".data.length = 6 ∧ (∀ ch ∈ "aaaaaa".data, ch ∈ codeAlphabet) ∧
      "aaaaaa" ∉ (["zzzzzz"] : List String) :=
  (generate_short_code_spec 6 ["zzzzzz"] (fun _ => 'a')
      (fun _ => (by decide : 'a' ∈ codeAlphabet)) (by decide)).1 "aaaaaa" rfl

/-- **C9.** With `existing_codes = None` (the Python default), the
membership check is skipped entirely: for every length and every random
stream the first drawn candidate is returned on the first attempt, and the
exhaustion error can never be raised. -/
theorem generate_none_first_attempt (L : Nat) (rand : Nat → Char) :
    generate_short_code L none rand = .ok (mkCandidate rand 0 L) := by
  simp [generate_short_code, genLoop]

/-! ## HTTP layer (`app/main.py`)

The three Flask handlers as pure functions.  Request plumbing is reduced to
its data: `body` is the shorten request's parsed `url` field (`none` covers
both a missing/falsy JSON document and a document without the `'url'` key —
the code returns the same 400 for both), `host` is `request.host_url`, `t`
the current time, and `rand` the random stream the generator consumes. -/

/-- A handler response with its HTTP status. -/
inductive HResp where
  | jsonErr (status : Nat) (msg : String)
  | created (short_code short_url : String)
  | statsOk (url : String) (clicks : Nat) (created_at : Nat)
  | redirectTo (location : String)
  | serverErr
deriving Repr, DecidableEq

/-- HTTP status code of a response: 201 for the shorten success payload
`{short_code, short_url}`, 200 for the stats payload
`{url, clicks, created_at}`, 302 for a redirect, 500 for the catch-all
`except` clause. -/
def HResp.status : HResp → Nat
  | .jsonErr s _ => s
  | .created _ _ => 201
  | .statsOk _ _ _ => 200
  | .redirectTo _ => 302
  | .serverErr => 500

/-- `set(url_store.urls.keys())`, the exclusion-set snapshot. -/
def storeKeys (s : Store) : List String := s.map Prod.fst

/-- The `POST /api/shorten` handler `shorten_url`.  Inside the `try` block
the only failure the model can raise is the generator's exhaustion, which
the `except` clause maps to a 500. -/
def shorten_url (s : Store) (body : Option String) (rand : Nat → Char)
    (t : Nat) (host : String) : Store × HResp :=
  match body with
  | none => (s, .jsonErr 400 "URL is required")
  | some original_url =>
      if !(is_valid_url original_url) then (s, .jsonErr 400 "Invalid URL format")
      else
        match generate_short_code 6 (some (storeKeys s)) rand with
        | .error _ => (s, .serverErr)
        | .ok short_code =>
            (save_url s short_code original_url t,
              .created short_code (host ++ short_code))

/-- The `GET /<short_code>` handler `redirect_url`: note the code answers
**404** (not 400) when the short code fails format validation. -/
def redirect_url (s : Store) (short_code : String) : Store × HResp :=
  if !(validate_short_code short_code) then (s, .jsonErr 404 "Invalid short code format")
  else
    match get_url s short_code with
    | none => (s, .jsonErr 404 "Short code not found")
    | some url_data =>
        ((increment_clicks s short_code).1, .redirectTo url_data.url)

/-- The `GET /api/stats/<short_code>` handler `get_stats` (read-only);
it too answers 404 on a format-invalid code. -/
def get_stats (s : Store) (short_code : String) : HResp :=
  if !(validate_short_code short_code) then .jsonErr 404 "Invalid short code format"
  else
    match get_url s short_code with
    | none => .jsonErr 404 "Short code not found"
    | some url_data => .statsOk url_data.url url_data.clicks url_data.created_at

/-- **C8 counterexample.**  The claim maps *every* validation failure to a
400 response, but for a redirect or stats request whose short code fails
`validate_short_code` the code returns **404** (exactly what the repo's own
tests assert): `"abc"` fails validation and both handlers answer 404. -/
theorem http_layer_cex :
    validate_short_code "abc" = false ∧
    (redirect_url [] "abc").2.status = 404 ∧
    (get_stats [] "abc").status = 404 ∧
    ¬ ((redirect_url [] "abc").2.status = 400) := by
  decide

/-- **C8 (amended).**  The HTTP layer maps a missing or `is_valid_url`-
failing URL on shorten to 400; a short code failing `validate_short_code`
on redirect or stats to **404**; a validly-formatted but absent short code
to 404; and on success returns 201 with `{short_code, short_url}` for
shorten (500 if generation is exhausted), a 302 redirect to the stored
`url` (incrementing its clicks), and 200 with `{url, clicks, created_at}`
for stats. -/
theorem http_layer_spec :
    (∀ s rand t host, shorten_url s none rand t host = (s, .jsonErr 400 "URL is required")) ∧
    (∀ s u rand t host, is_valid_url u = false →
        shorten_url s (some u) rand t host = (s, .jsonErr 400 "Invalid URL format")) ∧
    (∀ s u rand t host code, is_valid_url u = true →
        generate_short_code 6 (some (storeKeys s)) rand = .ok code →
        shorten_url s (some u) rand t host
          = (save_url s code u t, .created code (host ++ code))) ∧
    (∀ s u rand t host e, is_valid_url u = true →
        generate_short_code 6 (some (storeKeys s)) rand = .error e →
        shorten_url s (some u) rand t host = (s, .serverErr)) ∧
    (∀ s code, validate_short_code code = false →
        redirect_url s code = (s, .jsonErr 404 "Invalid short code format")) ∧
    (∀ s code, validate_short_code code = true → get_url s code = none →
        redirect_url s code = (s, .jsonErr 404 "Short code not found")) ∧
    (∀ s code e, validate_short_code code = true → get_url s code = some e →
        redirect_url s code = ((increment_clicks s code).1, .redirectTo e.url)) ∧
    (∀ s code, validate_short_code code = false →
        get_stats s code = .jsonErr 404 "Invalid short code format") ∧
    (∀ s code, validate_short_code code = true → get_url s code = none →
        get_stats s code = .jsonErr 404 "Short code not found") ∧
    (∀ s code e, validate_short_code code = true → get_url s code = some e →
        get_stats s code = .statsOk e.url e.clicks e.created_at) := by
  refine ⟨fun s rand t host => rfl, ?_, ?_, ?_, ?_, ?_, ?_, ?_, ?_, ?_⟩
  · intro s u rand t host h
    simp [shorten_url, h]
  · intro s u rand t host code h hg
    simp [shorten_url, h, hg]
  · intro s u rand t host e h hg
    simp [shorten_url, h, hg]
  · intro s code h
    simp [redirect_url, h]
  · intro s code h hn
    simp [redirect_url, h, hn]
  · intro s code e h he
    simp [redirect_url, h, he]
  · intro s code h
    simp [get_stats, h]
  · intro s code h hn
    simp [get_stats, h, hn]
  · intro s code e h he
    simp [get_stats, h, he]

/-- Witness for `http_layer_spec`, exercising every hypothesis-bearing
conjunct at concrete inputs. -/
theorem http_layer_spec_witness :
    shorten_url [] (some "nope") (fun _ => 'a') 0 "h/" = ([], .jsonErr 400 "Invalid URL format") ∧
    shorten_url [] (some "http://ex") (fun _ => 'a') 0 "h/"
      = (save_url [] "aaaaaa" "http://ex" 0, .created "aaaaaa" ("h/" ++ "aaaaaa")) ∧
    shorten_url [("aaaaaa", ⟨"http://ex", 0, 0⟩)] (some "http://ex") (fun _ => 'a') 0 "h/"
      = ([("aaaaaa", ⟨"http://ex", 0, 0⟩)], .serverErr) ∧
    redirect_url [] "ab" = ([], .jsonErr 404 "Invalid short code format") ∧
    redirect_url [] "abc123" = ([], .jsonErr 404 "Short code not found") ∧
    redirect_url [("abc123", ⟨"http://ex", 0, 0⟩)] "abc123"
      = ((increment_clicks [("abc123", ⟨"http://ex", 0, 0⟩)] "abc123").1,
          .redirectTo "http://ex") ∧
    get_stats [] "ab" = .jsonErr 404 "Invalid short code format" ∧
    get_stats [] "abc123" = .jsonErr 404 "Short code not found" ∧
    get_stats [("abc123", ⟨"http://ex", 0, 0⟩)] "abc123" = .statsOk "http://ex" 0 0 := by
  obtain ⟨h1, h2, h3, h4, h5, h6, h7, h8, h9, h10⟩ := http_layer_spec
  exact ⟨h2 [] "nope" (fun _ => 'a') 0 "h/" (by decide),
    h3 [] "http://ex" (fun _ => 'a') 0 "h/" "aaaaaa" (by decide) rfl,
    h4 [("aaaaaa", ⟨"http://ex", 0, 0⟩)] "http://ex" (fun _ => 'a') 0 "h/"
      "Unable to generate unique short code" (by decide) rfl,
    h5 [] "ab" (by decide),
    h6 [] "abc123" (by decide) (by decide),
    h7 [("abc123", ⟨"http://ex", 0, 0⟩)] "abc123" ⟨"http://ex", 0, 0⟩ (by decide) (by decide),
    h8 [] "ab" (by decide),
    h9 [] "abc123" (by decide) (by decide),
    h10 [("abc123", ⟨"http://ex", 0, 0⟩)] "abc123" ⟨"http://ex", 0, 0⟩ (by decide) (by decide)⟩
